import Mathlib

/-!
Verification of the configurable-product CSV transformer
(`src/functions/transform.js`).

JavaScript objects are modelled as insertion-ordered association lists with
unique keys (`objSet` updates in place or appends, `delete` filters the key
out); prototype-chain effects of JS objects are outside the model.  JS string
values are Lean `String`s; the numeric `1`/`0` written into `is_in_stock` is
modelled by the strings `"1"`/`"0"`.  Fallible code returns `Except Err`.
-/

namespace MIT

/-- A JS object with string values, in insertion order (one CSV row). -/
abbrev Row := List (String × String)

/-- JS property read: first binding of the key, if any. -/
def objGet {α : Type} (m : List (String × α)) (k : String) : Option α :=
  match m with
  | [] => none
  | (k2, v) :: rest => if k2 = k then some v else objGet rest k

/-- JS property write: update in place if the key exists, else append. -/
def objSet {α : Type} (m : List (String × α)) (k : String) (v : α) :
    List (String × α) :=
  match m with
  | [] => [(k, v)]
  | (k2, v2) :: rest => if k2 = k then (k2, v) :: rest else (k2, v2) :: objSet rest k v

/-- `Object.assign(base, extra)`: fold property writes over `base`. -/
def objSetAll {α : Type} (base : List (String × α)) (extra : List (String × α)) :
    List (String × α) :=
  extra.foldl (fun r kv => objSet r kv.1 kv.2) base

/-- Read a row cell the way the JS code reads `row[k]` where a missing
column and an empty cell are both falsy: absent keys give `""`. -/
def jsGetD (row : Row) (k : String) : String := (objGet row k).getD ""

/-- JS truthiness of a string value: every non-empty string is truthy. -/
def truthy (s : String) : Bool := s != ""

/-- JS `Array.prototype.join(sep)`. -/
def joinSep (sep : String) : List String → String
  | [] => ""
  | [x] => x
  | x :: y :: t => x ++ sep ++ joinSep sep (y :: t)

/-- Split a character list at every occurrence of `c`: the semantics of JS
`String.prototype.split` with a one-character separator (`"" → [""]`,
separators at the ends and adjacent separators produce empty pieces). -/
def splitChar (c : Char) : List Char → List (List Char)
  | [] => [[]]
  | x :: xs =>
      if x = c then [] :: splitChar c xs
      else
        match splitChar c xs with
        | [] => [[x]]
        | h :: t => (x :: h) :: t

/-- String-level split on a one-character separator. -/
def splitSep (c : Char) (s : String) : List String :=
  (splitChar c s.data).map String.mk

/-- JS `String.prototype.trim`: strip leading and trailing whitespace. -/
def jsTrim (s : String) : String :=
  String.mk (((s.data.dropWhile Char.isWhitespace).reverse.dropWhile
    Char.isWhitespace).reverse)

/-- JS `\w` character class: ASCII letters, digits and underscore. -/
def isWordChar (c : Char) : Bool := c.isAlphanum || c == '_'

/-- Attempt of `\(([^)]*)\)` at the start of `l`: succeeds when `l` starts
with `'('` and a `')'` occurs later; the label is everything up to the
first `')'`. -/
def parenLabel (l : List Char) : Option (List Char) :=
  match l with
  | '(' :: rest =>
      if rest.any (fun c => c == ')') then some (rest.takeWhile (fun c => c != ')'))
      else none
  | _ => none

/-- Attempt of the regex `([^(\W]*)\W?\(([^)]*)\)` anchored at this suffix.
The first group greedily takes the run of word characters; `\W?` greedily
consumes one following non-word character when the required `\(` can still
match, and backtracks to empty otherwise. -/
def matchAt (s : List Char) : Option (List Char × List Char) :=
  let code := s.takeWhile isWordChar
  match s.dropWhile isWordChar with
  | [] => none
  | c :: rest2 =>
      if c = '(' then
        match parenLabel rest2 with
        | some lab => some (code, lab)
        | none =>
            match parenLabel (c :: rest2) with
            | some lab => some (code, lab)
            | none => none
      else
        match parenLabel rest2 with
        | some lab => some (code, lab)
        | none => none

/-- Unanchored regex search: first suffix where `matchAt` succeeds, as in
JS `String.prototype.match` (first match wins). -/
def searchMatch : List Char → Option (List Char × List Char)
  | [] => none
  | s@(_ :: t) =>
      match matchAt s with
      | some r => some r
      | none => searchMatch t

/-- `attr.match(/(?<attributeCode>[^\(\W]*)\W?\((?<label>[^\)]*)\)/)`,
returning the two named groups on success. -/
def matchAttr (s : String) : Option (String × String) :=
  (searchMatch s.data).map (fun p => (String.mk p.1, String.mk p.2))

/-- The errors the transformation can raise. -/
inductive Err where
  | duplicateSku (dups : List String)
  | typeErrorNullGroups
  | missingValue (code sku : String)
deriving Repr, DecidableEq

/-- The `e.message` text reported for each error.  The duplicate-SKU text is
always singular: the source compares `duplicateSkus.length.length > 1`, and
`.length` of a number is `undefined`, which is never `> 1`. -/
def errMessage : Err → String
  | .duplicateSku dups => "Can't handle duplicate SKU: " ++ joinSep ", " dups
  | .typeErrorNullGroups => "Cannot read properties of null (reading 'groups')"
  | .missingValue c s => "Couldn't find value for " ++ c ++ " on child simple product " ++ s

/-- `configurableAttributes.split(',').map(attr => attr.match(...).groups)`:
the map runs left to right and accessing `.groups` of a failed (null) match
throws a TypeError at the first unmatched piece.  The source's
`if (matches) ... else return false` branch is dead code: a mapped array is
always truthy. -/
def matchAll : List String → Except Err (List (String × String))
  | [] => .ok []
  | p :: rest =>
      match matchAttr p with
      | none => .error Err.typeErrorNullGroups
      | some kv => (matchAll rest).map (fun l => kv :: l)

/-- `parseConfigurableAttributes` from the source. -/
def parseConfigurableAttributes (s : String) : Except Err (List (String × String)) :=
  matchAll (splitSep ',' s)

/-- `findAdditionalAttributeHeaders`, with the `passedAdditionalAttributeHeader`
flag made an explicit argument of the filter loop.  The marker header itself
sets the flag but is filtered out (`return false` on the marker). -/
def findAAHGo (passed : Bool) : List String → List String
  | [] => []
  | k :: rest =>
      if passed then k :: findAAHGo true rest
      else if k = "additional_attributes" then findAAHGo true rest
      else findAAHGo false rest

/-- `findAdditionalAttributeHeaders` from the source. -/
def findAdditionalAttributeHeaders (headers : List String) : List String :=
  findAAHGo false headers

/-- `columns.indexOf(key) !== -1`: membership in the column-name list. -/
def containsStr (cols : List String) (k : String) : Bool :=
  match cols with
  | [] => false
  | c :: rest => if c = k then true else containsStr rest k

/-- `extractColumns` from the source: keep the keys named in `columns`, in
the object's own key order. -/
def extractColumns (data : Row) (columns : List String) : Row :=
  data.filter (fun kv => containsStr columns kv.1)

/-- `purgeColumns` from the source: delete every key named in `columns`. -/
def purgeColumns (data : Row) (columns : List String) : Row :=
  data.filter (fun kv => !(containsStr columns kv.1))

/-- `convertColumnsToStringKeyValue` from the source. -/
def convertColumnsToStringKeyValue (data : Row) (multiValueSeperator : String) : String :=
  joinSep multiValueSeperator (data.map (fun kv => kv.1 ++ "=" ++ kv.2))

/-- JS `parseInt(s)` (radix auto-detection): skip leading whitespace, an
optional sign, then either `0x`/`0X` hex digits or decimal digits; `none`
models `NaN`.  `-0` is collapsed to `0`. -/
def jsParseInt (s : String) : Option Int :=
  let l := s.data.dropWhile Char.isWhitespace
  let signed : Int × List Char :=
    match l with
    | '-' :: t => (-1, t)
    | '+' :: t => (1, t)
    | _ => (1, l)
  let digitsOf (base : Nat) (isD : Char → Bool) (val : Char → Nat) (t : List Char) :
      Option Int :=
    let ds := t.takeWhile isD
    if ds.isEmpty then none
    else some (signed.1 * Int.ofNat (ds.foldl (fun acc c => acc * base + val c) 0))
  match signed.2 with
  | '0' :: x :: t =>
      if x = 'x' ∨ x = 'X' then
        digitsOf 16 (fun c => c.isDigit || ('a' ≤ c && c ≤ 'f') || ('A' ≤ c && c ≤ 'F'))
          (fun c => if c.isDigit then c.toNat - 48
                    else if 'a' ≤ c then c.toNat - 87 else c.toNat - 55) t
      else digitsOf 10 Char.isDigit (fun c => c.toNat - 48) signed.2
  | t => digitsOf 10 Char.isDigit (fun c => c.toNat - 48) t

/-- The transformation options established at the top of the handler. -/
structure Options where
  multiValueSeperator : String
  valueGroupSeperator : String
  autoStockStatusThreshold : Option Int
deriving Repr, DecidableEq

/-- The default options when no query parameters are supplied. -/
def defaultOptions : Options :=
  { multiValueSeperator := "|", valueGroupSeperator := "$", autoStockStatusThreshold := none }

/-- The query-string parameters the handler reads (absent = `none`). -/
structure QueryParams where
  multi_value_seperator : Option String
  value_group_seperator : Option String
  auto_stock_status_threshold : Option String
deriving Repr, DecidableEq

/-- `parseInt(event.queryStringParameters.auto_stock_status_threshold) || null`:
a missing parameter parses to `NaN`, and both `NaN` and `0` are falsy, so the
stored threshold is `null` (`none`) unless the parameter parses to a nonzero
integer. -/
def parseThresholdParam (q : Option String) : Option Int :=
  match q with
  | none => none
  | some s =>
      match jsParseInt s with
      | none => none
      | some n => if n = 0 then none else some n

/-- The options record built from the query string (`x || default` falls back
to the default on the empty string as well, since `""` is falsy). -/
def optionsFromQuery (q : QueryParams) : Options :=
  { multiValueSeperator :=
      match q.multi_value_seperator with
      | some s => if s = "" then "|" else s
      | none => "|"
    valueGroupSeperator :=
      match q.value_group_seperator with
      | some s => if s = "" then "$" else s
      | none => "$"
    autoStockStatusThreshold := parseThresholdParam q.auto_stock_status_threshold }

/-- The SKU-indexing pass (first `data.forEach`): rows whose trimmed SKU is
empty are skipped; an already-indexed (untrimmed) SKU is appended to the
duplicates list; the index entry is then overwritten with the row position. -/
def skuIndexGo : Nat → List Row → List (String × Nat) → List String →
    (List (String × Nat)) × List String
  | _, [], idx, dups => (idx, dups)
  | i, r :: rs, idx, dups =>
      let sku := jsGetD r "sku"
      if jsTrim sku = "" then skuIndexGo (i + 1) rs idx dups
      else
        skuIndexGo (i + 1) rs (objSet idx sku i)
          (if (objGet idx sku).isSome then dups ++ [sku] else dups)

/-- The duplicates list produced by the indexing pass. -/
def duplicateSkusOf (data : List Row) : List String :=
  (skuIndexGo 0 data [] []).2

/-- The four interdependency maps built by the relationship pass. -/
structure RelState where
  childrenByParent : List (String × List String)
  labelsByParent : List (String × String)
  parentByChildren : List (String × String)
  valuesByChildren : List (String × Row)
deriving Repr, DecidableEq

/-- The empty interdependency storage. -/
def RelState.empty : RelState := ⟨[], [], [], []⟩

/-- The `configurableAttributes.forEach` loop indexing attribute values for a
child: each declared code is checked for truthiness before being stored, and
a falsy cell throws naming the code and the child SKU. -/
def storeValues (row : Row) (sku : String) : List (String × String) → Row → Except Err Row
  | [], acc => .ok acc
  | (code, _) :: rest, acc =>
      if truthy (jsGetD row code) then
        storeValues row sku rest (objSet acc code (jsGetD row code))
      else .error (Err.missingValue code sku)

/-- One row of the relationship pass (second `data.forEach`).  Note the skip
condition here is `row.sku.length === 0`: the SKU is not trimmed, unlike the
other two passes. -/
def relStep (opts : Options) (st : RelState) (row : Row) : Except Err RelState :=
  let sku := jsGetD row "sku"
  if sku = "" then .ok st
  else if truthy (jsGetD row "parent_sku") && truthy (jsGetD row "configurable_attributes") then
    let parent := jsGetD row "parent_sku"
    let children0 :=
      match objGet st.childrenByParent parent with
      | none => objSet st.childrenByParent parent []
      | some _ => st.childrenByParent
    match parseConfigurableAttributes (jsGetD row "configurable_attributes") with
    | .error e => .error e
    | .ok attrs =>
        match storeValues row sku attrs [] with
        | .error e => .error e
        | .ok vals =>
            .ok { childrenByParent :=
                    objSet children0 parent ((objGet children0 parent).getD [] ++ [sku])
                  labelsByParent :=
                    objSet st.labelsByParent parent
                      (joinSep opts.multiValueSeperator
                        (attrs.map (fun a => a.1 ++ "=" ++ a.2)))
                  parentByChildren := objSet st.parentByChildren sku parent
                  valuesByChildren := objSet st.valuesByChildren sku vals }
  else .ok st

/-- The relationship pass over all rows. -/
def relPassGo (opts : Options) : List Row → RelState → Except Err RelState
  | [], st => .ok st
  | r :: rs, st =>
      match relStep opts st r with
      | .error e => .error e
      | .ok st2 => relPassGo opts rs st2

/-- The relationship pass started from empty storage. -/
def relPass (opts : Options) (data : List Row) : Except Err RelState :=
  relPassGo opts data RelState.empty

/-- JS truthiness of the stored threshold: `null` and `0` are falsy, every
other number is truthy. -/
def jsTruthyNum : Option Int → Bool
  | some t => t != 0
  | none => false

/-- The `Auto stock status` block of the row-modification pass: fires only
when the threshold option is truthy and both `qty` and `is_in_stock` cells
are truthy; `parseInt` of a non-numeric `qty` gives `NaN`, and `NaN >=
threshold` is false, so such rows are set out of stock. -/
def autoStockStatus (opts : Options) (row : Row) : Row :=
  if jsTruthyNum opts.autoStockStatusThreshold && truthy (jsGetD row "qty")
      && truthy (jsGetD row "is_in_stock") then
    let t := opts.autoStockStatusThreshold.getD 0
    match jsParseInt (jsGetD row "qty") with
    | some q => if t ≤ q then objSet row "is_in_stock" "1" else objSet row "is_in_stock" "0"
    | none => objSet row "is_in_stock" "0"
  else row

/-- The `configurable_variations` string for one parent: per child,
`Object.assign({sku: childSku}, values)` rendered as `key=value` pairs joined
by the multi-value separator, with the children joined by the value-group
separator. -/
def encodeVariations (opts : Options) (children : List String)
    (valuesByChildren : List (String × Row)) : String :=
  joinSep opts.valueGroupSeperator
    (children.map (fun childSku =>
      convertColumnsToStringKeyValue
        (objSetAll [("sku", childSku)] ((objGet valuesByChildren childSku).getD []))
        opts.multiValueSeperator))

/-- The tail of the row-modification body: squash the additional-attribute
columns into `additional_attributes`, apply the stock-status override, then
purge `parent_sku`, `configurable_attributes` and the additional-attribute
columns. -/
def squashAndFinish (opts : Options) (addl : List String) (row3 : Row) : Row :=
  let row4 :=
    objSet row3 "additional_attributes"
      (convertColumnsToStringKeyValue (extractColumns row3 addl) opts.multiValueSeperator)
  let row5 := autoStockStatus opts row4
  purgeColumns (purgeColumns row5 ["parent_sku", "configurable_attributes"]) addl

/-- The row-modification body (third `data.forEach`), for one non-blank row.
The `if (additionalAttributeHeaders)` guard of the source is always true — a
JS array is truthy even when empty — so the placeholder write and the squash
step run unconditionally. -/
def encodeRow (opts : Options) (addl : List String) (rel : RelState) (row0 : Row) : Row :=
  let row1 :=
    if rel.childrenByParent.isEmpty then row0
    else objSet (objSet row0 "configurable_variations" "") "configurable_variation_labels" ""
  let row2 := objSet row1 "additional_attributes" ""
  let row3 :=
    match objGet rel.childrenByParent (jsGetD row2 "sku") with
    | some children =>
        objSet (objSet row2 "configurable_variations"
            (encodeVariations opts children rel.valuesByChildren))
          "configurable_variation_labels"
          ((objGet rel.labelsByParent (jsGetD row2 "sku")).getD "")
    | none => row2
  squashAndFinish opts addl row3

/-- The row-modification pass: rows whose trimmed SKU is empty are dropped,
every other row is rewritten and pushed to the output in input order. -/
def encodeGo (opts : Options) (addl : List String) (rel : RelState) : List Row → List Row
  | [] => []
  | r :: rs =>
      if jsTrim (jsGetD r "sku") = "" then encodeGo opts addl rel rs
      else encodeRow opts addl rel r :: encodeGo opts addl rel rs

/-- The column headers of the record set, taken from the first row. -/
def headersOf (data : List Row) : List String :=
  (data.headD []).map (fun kv => kv.1)

/-- The transformation core of `exports.handler`: locate the additional
attribute headers, index SKUs and abort on duplicates, build the
relationship maps (aborting on a malformed spec or a missing attribute
value), then rewrite every non-blank row.  An error aborts the whole
invocation with no output rows. -/
def handler (opts : Options) (data : List Row) : Except Err (List Row) :=
  let addl := findAdditionalAttributeHeaders (headersOf data)
  let dups := duplicateSkusOf data
  if dups.isEmpty then
    match relPass opts data with
    | .error e => .error e
    | .ok rel => .ok (encodeGo opts addl rel data)
  else .error (Err.duplicateSku dups)

/-! ### Spec-side definitions and concrete datasets -/

/-- The non-blank (untrimmed) SKU of each row that survives the blank-SKU
skip of the indexing pass, in row order. -/
def nonBlankSkus (data : List Row) : List String :=
  data.filterMap (fun r =>
    if jsTrim (jsGetD r "sku") = "" then none else some (jsGetD r "sku"))

/-- Reference recursion for the duplicates list: given which SKUs have been
seen, every later occurrence of a seen SKU is emitted. -/
def dupsAux (seen : String → Bool) : List String → List String
  | [] => []
  | s :: rest => (if seen s then [s] else []) ++ dupsAux (fun x => x == s || seen x) rest

/-- A child row: non-empty SKU (the relationship pass skips only the exactly
empty SKU) with both `parent_sku` and `configurable_attributes` truthy. -/
def isChildRow (row : Row) : Prop :=
  jsGetD row "sku" ≠ "" ∧ jsGetD row "parent_sku" ≠ "" ∧
    jsGetD row "configurable_attributes" ≠ ""

/-- The row's `configurable_attributes` cell parses. -/
def rowSpecParses (row : Row) : Prop :=
  ∃ attrs, parseConfigurableAttributes (jsGetD row "configurable_attributes") = .ok attrs

/-- The row's parsed spec names attribute code `c` but the row's `c` cell is
falsy (absent or empty). -/
def rowLacksValue (row : Row) (c : String) : Prop :=
  ∃ attrs, parseConfigurableAttributes (jsGetD row "configurable_attributes") = .ok attrs
    ∧ (∃ lab, (c, lab) ∈ attrs) ∧ jsGetD row c = ""

/-- The value written into `is_in_stock` when the stock-status override
fires with threshold `t`. -/
def expectedStockValue (t : Int) (qty : String) : String :=
  match jsParseInt qty with
  | some q => if t ≤ q then "1" else "0"
  | none => "0"

/-- Modelled from the spec: decode one `key=value` pair by splitting on `=`;
the key is the part before the first `=`, the value the rest. -/
def specDecodePair (s : String) : String × String :=
  match splitSep '=' s with
  | [] => ("", "")
  | k :: rest => (k, joinSep "=" rest)

/-- Modelled from the spec: decode one child group by splitting on the
multi-value separator; the first pair carries the child SKU, the remaining
pairs its attribute mapping. -/
def specDecodeGroup (s : String) : String × Row :=
  match (splitSep '|' s).map specDecodePair with
  | [] => ("", [])
  | p :: rest => (p.2, rest)

/-- Modelled from the spec: decode a `configurable_variations` string under
the default separators by splitting on the value-group separator, then each
group on the multi-value separator, then each pair on `=`. -/
def specDecodeVariations (s : String) : List (String × Row) :=
  (splitSep '$' s).map specDecodeGroup

/-- A character that cannot disturb the default-separator encoding. -/
def cleanChar (ch : Char) : Bool := ch != '=' && ch != '|' && ch != '$'

/-- A string free of `=` and of both default separators. -/
def cleanStr (s : String) : Bool := s.data.all cleanChar

/-- A parent row of the running configurable example: SKU `P`, no parent of
its own. -/
def c1ParentRow : Row :=
  [("sku", "P"), ("parent_sku", ""), ("configurable_attributes", ""),
   ("color", ""), ("size", "")]

/-- A child row of the running configurable example, with the two attribute
cells left as parameters. -/
def c1ChildRow (sku v1 v2 : String) : Row :=
  [("sku", sku), ("parent_sku", "P"),
   ("configurable_attributes", "color(Color),size(Size)"),
   ("color", v1), ("size", v2)]

/-- Parent `P` followed by children `C1`, `C2` carrying values `v1`–`v4`. -/
def c1Data (v1 v2 v3 v4 : String) : List Row :=
  [c1ParentRow, c1ChildRow "C1" v1 v2, c1ChildRow "C2" v3 v4]

/-- The output row for `P` on `c1Data`. -/
def c1OutParent (v1 v2 v3 v4 : String) : Row :=
  [("sku", "P"), ("color", ""), ("size", ""),
   ("configurable_variations",
     "sku=C1|color=" ++ v1 ++ "|size=" ++ v2 ++ "$sku=C2|color=" ++ v3 ++ "|size=" ++ v4),
   ("configurable_variation_labels", "color=Color|size=Size"),
   ("additional_attributes", "")]

/-- The output row for a child of `c1Data`. -/
def c1OutChild (sku w1 w2 : String) : Row :=
  [("sku", sku), ("color", w1), ("size", w2),
   ("configurable_variations", ""), ("configurable_variation_labels", ""),
   ("additional_attributes", "")]

/-- A parent row without the size column, for the smaller examples. -/
def smallParentRow : Row :=
  [("sku", "P"), ("parent_sku", ""), ("configurable_attributes", ""), ("color", "")]

/-- A child row whose SKU is a single space: blank after trimming, but of
non-zero length. -/
def wsSkuChildRow : Row :=
  [("sku", " "), ("parent_sku", "P"), ("configurable_attributes", "color(Color)"),
   ("color", "red")]

/-- Dataset for claim C6: a parent and a whitespace-only-SKU child. -/
def c6Data : List Row := [smallParentRow, wsSkuChildRow]

/-- Dataset for claim C7: a child row whose `configurable_attributes` cell
`"color"` does not match the spec grammar. -/
def c7Data : List Row :=
  [smallParentRow,
   [("sku", "C1"), ("parent_sku", "P"), ("configurable_attributes", "color"),
    ("color", "red")]]

/-- Dataset for claim C8: a child whose `color` value contains the
multi-value separator. -/
def c8Data : List Row :=
  [smallParentRow,
   [("sku", "C1"), ("parent_sku", "P"), ("configurable_attributes", "color(Color)"),
    ("color", "a|b")]]

/-- Dataset for claim C10: a plain row `A` and a child row `B` whose
`parent_sku` `X` is no row's SKU. -/
def c10Data : List Row :=
  [[("sku", "A"), ("parent_sku", ""), ("configurable_attributes", ""), ("color", "")],
   [("sku", "B"), ("parent_sku", "X"), ("configurable_attributes", "color(Color)"),
    ("color", "red")]]

/-! ### Basic lemmas about the JS-object model -/

theorem objGet_objSet {α : Type} (m : List (String × α)) (k x : String) (v : α) :
    objGet (objSet m k v) x = if x = k then some v else objGet m x := by
  induction m with
  | nil =>
      by_cases h : x = k
      · simp [objSet, objGet, h]
      · simp [objSet, objGet, h, Ne.symm h]
  | cons kv rest ih =>
      obtain ⟨a, b⟩ := kv
      by_cases hak : a = k
      · by_cases hxa : x = a
        · simp [objSet, objGet, hak, hxa, hxa.trans hak]
        · have hxk : x ≠ k := fun hh => hxa (hh.trans hak.symm)
          simp [objSet, objGet, hak, hxa, Ne.symm hxa, hxk, Ne.symm hxk]
      · by_cases hax : a = x
        · have hxk : x ≠ k := fun hh => hak ((hax.trans hh))
          simp [objSet, objGet, hak, hax, hxk]
        · simp [objSet, objGet, hak, hax, ih]

theorem objGet_objSet_self {α : Type} (m : List (String × α)) (k : String) (v : α) :
    objGet (objSet m k v) k = some v := by
  rw [objGet_objSet]; simp

theorem objGet_objSet_ne {α : Type} (m : List (String × α)) (k x : String) (v : α)
    (h : x ≠ k) : objGet (objSet m k v) x = objGet m x := by
  rw [objGet_objSet]; simp [h]

theorem objGet_purgeColumns (r : Row) (cols : List String) (k : String)
    (h : containsStr cols k = false) : objGet (purgeColumns r cols) k = objGet r k := by
  induction r with
  | nil => rfl
  | cons kv rest ih =>
      obtain ⟨a, b⟩ := kv
      simp only [purgeColumns, List.filter_cons] at ih ⊢
      by_cases h1 : a = k
      · rw [h1, h]
        simp [objGet, h1]
      · by_cases h2 : containsStr cols a
        · simpa [h2, objGet, h1] using ih
        · simpa [h2, objGet, h1] using ih

theorem extractColumns_nil (r : Row) : extractColumns r [] = [] := by
  induction r with
  | nil => rfl
  | cons kv rest ih =>
      simp [extractColumns, List.filter_cons, containsStr]

theorem purgeColumns_nil (r : Row) : purgeColumns r [] = r := by
  induction r with
  | nil => rfl
  | cons kv rest ih =>
      simp [purgeColumns, List.filter_cons, containsStr]

theorem objGet_autoStockStatus_ne (opts : Options) (row : Row) (k : String)
    (h : k ≠ "is_in_stock") : objGet (autoStockStatus opts row) k = objGet row k := by
  unfold autoStockStatus
  split
  · cases hj : jsParseInt (jsGetD row "qty") with
    | none => simp [hj, objGet_objSet_ne _ _ _ _ h]
    | some q =>
        simp only [hj]
        split <;> simp [objGet_objSet_ne _ _ _ _ h]
  · rfl

theorem truthy_eq_true_iff (s : String) : truthy s = true ↔ s ≠ "" := by
  simp [truthy]

theorem truthy_eq_false_iff (s : String) : truthy s = false ↔ s = "" := by
  simp [truthy]

theorem findAAHGo_true (l : List String) : findAAHGo true l = l := by
  induction l with
  | nil => rfl
  | cons k rest ih => simp [findAAHGo, ih]

theorem objGet_squashAndFinish (opts : Options) (addl : List String) (row3 : Row)
    (k : String) (h1 : k ≠ "additional_attributes") (h2 : k ≠ "is_in_stock")
    (h3 : k ≠ "parent_sku") (h4 : k ≠ "configurable_attributes")
    (h5 : containsStr addl k = false) :
    objGet (squashAndFinish opts addl row3) k = objGet row3 k := by
  unfold squashAndFinish
  rw [objGet_purgeColumns _ _ _ h5]
  rw [objGet_purgeColumns _ _ _ (by simp [containsStr, h3, h4, Ne.symm h3, Ne.symm h4])]
  rw [objGet_autoStockStatus_ne _ _ _ h2]
  rw [objGet_objSet_ne _ _ _ _ h1]

theorem objGet_squashAndFinish_additional (opts : Options) (row3 : Row) :
    objGet (squashAndFinish opts [] row3) "additional_attributes" = some "" := by
  unfold squashAndFinish
  rw [purgeColumns_nil]
  rw [objGet_purgeColumns _ _ _ (by decide)]
  rw [objGet_autoStockStatus_ne _ _ _ (by decide)]
  rw [extractColumns_nil]
  exact objGet_objSet_self _ _ _

theorem strAppendAssoc (a b c : String) : a ++ b ++ c = a ++ (b ++ c) := by
  rcases a with ⟨la⟩
  rcases b with ⟨lb⟩
  rcases c with ⟨lc⟩
  show String.mk (la ++ lb ++ lc) = String.mk (la ++ (lb ++ lc))
  rw [List.append_assoc]

/-- The variations string as the encoder associates it equals its flat
spelling. -/
theorem strVariationsEq (v1 v2 v3 v4 : String) :
    (("sku=C1|" ++ (("color=" ++ v1 ++ "|") ++ ("size=" ++ v2))) ++ "$") ++
      ("sku=C2|" ++ (("color=" ++ v3 ++ "|") ++ ("size=" ++ v4))) =
    "sku=C1|color=" ++ v1 ++ "|size=" ++ v2 ++
      "$sku=C2|color=" ++ v3 ++ "|size=" ++ v4 := by
  simp only [strAppendAssoc]
  rfl

theorem c1OutParent_produced (v1 v2 v3 v4 : String) :
    c1OutParent v1 v2 v3 v4 =
      [("sku", "P"), ("color", ""), ("size", ""),
       ("configurable_variations",
         (("sku=C1|" ++ (("color=" ++ v1 ++ "|") ++ ("size=" ++ v2))) ++ "$") ++
           ("sku=C2|" ++ (("color=" ++ v3 ++ "|") ++ ("size=" ++ v4)))),
       ("configurable_variation_labels", "color=Color|size=Size"),
       ("additional_attributes", "")] := by
  unfold c1OutParent
  rw [← strVariationsEq v1 v2 v3 v4]

theorem strMkData (s : String) : String.mk s.data = s := by
  rcases s with ⟨l⟩
  rfl

theorem splitChar_all_ne (c : Char) (l : List Char) (h : ∀ ch ∈ l, ch ≠ c) :
    splitChar c l = [l] := by
  induction l with
  | nil => rfl
  | cons x xs ih =>
      have hx : x ≠ c := h x (by simp)
      have ih2 := ih (fun ch hm => h ch (by simp [hm]))
      simp [splitChar, hx, ih2]

theorem splitChar_append (c : Char) (p rest : List Char) (h : ∀ ch ∈ p, ch ≠ c) :
    splitChar c (p ++ c :: rest) = p :: splitChar c rest := by
  induction p with
  | nil => simp [splitChar]
  | cons x xs ih =>
      have hx : x ≠ c := h x (by simp)
      have ih2 := ih (fun ch hm => h ch (by simp [hm]))
      simp [splitChar, hx, ih2]

theorem splitSep_joinSep (c : Char) (sep : String) (hsep : sep.data = [c])
    (parts : List String) (hne : parts ≠ [])
    (h : ∀ p ∈ parts, ∀ ch ∈ p.data, ch ≠ c) :
    splitSep c (joinSep sep parts) = parts := by
  induction parts with
  | nil => cases hne rfl
  | cons x rest ih =>
      cases rest with
      | nil =>
          show splitSep c x = [x]
          unfold splitSep
          rw [splitChar_all_ne c x.data (h x (by simp))]
          simp [strMkData]
      | cons y t =>
          have ih2 := ih (by simp) (fun p hp ch hc => h p (by simp [hp]) ch hc)
          show splitSep c (x ++ sep ++ joinSep sep (y :: t)) = x :: y :: t
          unfold splitSep at ih2 ⊢
          rw [String.data_append, String.data_append, hsep, List.append_assoc]
          simp only [List.singleton_append]
          rw [splitChar_append c x.data _ (h x (by simp))]
          simp only [List.map_cons]
          rw [ih2, strMkData]

theorem specDecodePair_encode (k v : String) (hk : ∀ ch ∈ k.data, ch ≠ '=')
    (hv : ∀ ch ∈ v.data, ch ≠ '=') :
    specDecodePair (k ++ "=" ++ v) = (k, v) := by
  unfold specDecodePair splitSep
  rw [String.data_append, String.data_append,
    show ("=" : String).data = ['='] from rfl, List.append_assoc]
  simp only [List.singleton_append]
  rw [splitChar_append _ _ _ hk, splitChar_all_ne _ _ hv]
  simp [joinSep, strMkData]

theorem mem_data_pair (k v : String) (ch : Char) (h : ch ∈ (k ++ "=" ++ v).data) :
    ch ∈ k.data ∨ ch = '=' ∨ ch ∈ v.data := by
  rw [String.data_append, String.data_append,
    show ("=" : String).data = ['='] from rfl] at h
  simp only [List.append_assoc, List.singleton_append, List.mem_append,
    List.mem_cons] at h
  tauto

theorem mem_data_joinSep (sep : String) (parts : List String) (ch : Char) :
    ch ∈ (joinSep sep parts).data → ch ∈ sep.data ∨ ∃ p ∈ parts, ch ∈ p.data := by
  induction parts with
  | nil => intro h; simp [joinSep] at h
  | cons x rest ih =>
      cases rest with
      | nil =>
          intro h
          exact Or.inr ⟨x, by simp, h⟩
      | cons y t =>
          intro h
          rw [show joinSep sep (x :: y :: t) = x ++ sep ++ joinSep sep (y :: t) from rfl,
            String.data_append, String.data_append] at h
          simp only [List.mem_append] at h
          rcases h with (h | h) | h
          · exact Or.inr ⟨x, by simp, h⟩
          · exact Or.inl h
          · rcases ih h with h2 | ⟨p, hp, hchp⟩
            · exact Or.inl h2
            · exact Or.inr ⟨p, by simp [hp], hchp⟩

theorem objGet_append_none {α : Type} (m1 m2 : List (String × α)) (k : String)
    (h : objGet m1 k = none) : objGet (m1 ++ m2) k = objGet m2 k := by
  induction m1 with
  | nil => rfl
  | cons kv rest ih =>
      obtain ⟨a, b⟩ := kv
      by_cases hak : a = k
      · exact absurd h (by simp [objGet, hak])
      · have h2 : objGet rest k = none := by simpa [objGet, hak] using h
        show objGet ((a, b) :: (rest ++ m2)) k = objGet m2 k
        simp [objGet, hak, ih h2]

theorem objSet_fresh {α : Type} (m : List (String × α)) (k : String) (v : α)
    (h : objGet m k = none) : objSet m k v = m ++ [(k, v)] := by
  induction m with
  | nil => rfl
  | cons kv rest ih =>
      obtain ⟨a, b⟩ := kv
      by_cases hak : a = k
      · exact absurd h (by simp [objGet, hak])
      · have h2 : objGet rest k = none := by simpa [objGet, hak] using h
        simp [objSet, hak, ih h2]

theorem objSetAll_fresh (base vals : Row)
    (hfresh : ∀ kv ∈ vals, objGet base kv.1 = (none : Option String))
    (hnodup : (vals.map Prod.fst).Nodup) :
    objSetAll base vals = base ++ vals := by
  induction vals generalizing base with
  | nil => simp [objSetAll]
  | cons kv rest ih =>
      obtain ⟨k, v⟩ := kv
      have hk : objGet base k = none := hfresh (k, v) (by simp)
      have hstep : objSetAll base ((k, v) :: rest) = objSetAll (base ++ [(k, v)]) rest := by
        simp [objSetAll, objSet_fresh base k v hk]
      rw [hstep]
      have hnotin : k ∉ rest.map Prod.fst := by
        simp only [List.map_cons, List.nodup_cons] at hnodup
        exact hnodup.1
      have hfresh2 : ∀ kv2 ∈ rest, objGet (base ++ [(k, v)]) kv2.1 = (none : Option String) := by
        intro kv2 hkv2
        rw [objGet_append_none _ _ _ (hfresh kv2 (by simp [hkv2]))]
        have : kv2.1 ≠ k := by
          intro hh
          exact hnotin (hh ▸ List.mem_map_of_mem Prod.fst hkv2)
        simp [objGet, Ne.symm this]
      have hnodup2 : (rest.map Prod.fst).Nodup := by
        simp only [List.map_cons, List.nodup_cons] at hnodup
        exact hnodup.2
      rw [ih _ hfresh2 hnodup2, List.append_assoc]
      rfl

theorem specDecodeGroup_encode (sku : String) (vals : Row)
    (hsku : ∀ ch ∈ sku.data, ch ≠ '=' ∧ ch ≠ '|')
    (hvals : ∀ kv ∈ vals, (∀ ch ∈ kv.1.data, ch ≠ '=' ∧ ch ≠ '|') ∧
      (∀ ch ∈ kv.2.data, ch ≠ '=' ∧ ch ≠ '|')) :
    specDecodeGroup
      (convertColumnsToStringKeyValue (("sku", sku) :: vals) "|") = (sku, vals) := by
  unfold specDecodeGroup convertColumnsToStringKeyValue
  rw [splitSep_joinSep '|' "|" rfl _ (by simp) ?clean]
  case clean =>
    intro p hp ch hch
    simp only [List.map_cons, List.mem_cons, List.mem_map] at hp
    rcases hp with hp | ⟨kv, hkv, hpe⟩
    · subst hp
      rcases mem_data_pair _ _ _ hch with h | h | h
      · have h2 : ch = 's' ∨ ch = 'k' ∨ ch = 'u' := by simpa using h
        rcases h2 with h2 | h2 | h2 <;> simp [h2]
      · simp [h]
      · exact (hsku ch h).2
    · rcases mem_data_pair kv.1 kv.2 ch (hpe ▸ hch) with h | h | h
      · exact ((hvals kv hkv).1 ch h).2
      · simp [h]
      · exact ((hvals kv hkv).2 ch h).2
  have hrest : ∀ l : Row, (∀ kv ∈ l, (∀ ch ∈ kv.1.data, ch ≠ '=' ∧ ch ≠ '|') ∧
      (∀ ch ∈ kv.2.data, ch ≠ '=' ∧ ch ≠ '|')) →
      List.map specDecodePair (l.map (fun kv => kv.1 ++ "=" ++ kv.2)) = l := by
    intro l
    induction l with
    | nil => intro _; rfl
    | cons kv rest ih =>
        intro hl
        simp only [List.map_cons]
        rw [specDecodePair_encode kv.1 kv.2
          (fun ch h => ((hl kv (by simp)).1 ch h).1)
          (fun ch h => ((hl kv (by simp)).2 ch h).1)]
        rw [ih (fun kv2 h2 => hl kv2 (by simp [h2]))]
  simp only [List.map_cons]
  rw [show (("sku", sku).1 ++ "=" ++ ("sku", sku).2) = ("sku" ++ "=" ++ sku) from rfl]
  rw [specDecodePair_encode "sku" sku (by decide) (fun ch h => (hsku ch h).1)]
  rw [hrest vals hvals]

theorem matchAll_error (l : List String)
    (h : l.any (fun p => (matchAttr p).isNone) = true) :
    matchAll l = .error Err.typeErrorNullGroups := by
  induction l with
  | nil => simp at h
  | cons p rest ih =>
      cases hm : matchAttr p with
      | none => simp [matchAll, hm]
      | some kv =>
          simp only [List.any_cons, hm, Option.isNone_some, Bool.false_or] at h
          simp [matchAll, hm, ih h, Except.map]

theorem objGet_objSet_isSome {α : Type} (m : List (String × α)) (k x : String) (v : α) :
    (objGet (objSet m k v) x).isSome = ((x == k) || (objGet m x).isSome) := by
  rw [objGet_objSet]
  by_cases h : x = k <;> simp [h]

theorem skuIndexGo_dups (rows : List Row) :
    ∀ (i : Nat) (idx : List (String × Nat)) (dups : List String),
    (skuIndexGo i rows idx dups).2 =
      dups ++ dupsAux (fun s => (objGet idx s).isSome) (nonBlankSkus rows) := by
  induction rows with
  | nil => intro i idx dups; simp [skuIndexGo, dupsAux, nonBlankSkus]
  | cons r rs ih =>
      intro i idx dups
      by_cases hb : jsTrim (jsGetD r "sku") = ""
      · rw [show skuIndexGo i (r :: rs) idx dups = skuIndexGo (i + 1) rs idx dups from
          by simp [skuIndexGo, hb]]
        rw [show nonBlankSkus (r :: rs) = nonBlankSkus rs from by simp [nonBlankSkus, hb]]
        exact ih (i + 1) idx dups
      · rw [show skuIndexGo i (r :: rs) idx dups =
            skuIndexGo (i + 1) rs (objSet idx (jsGetD r "sku") i)
              (if (objGet idx (jsGetD r "sku")).isSome then dups ++ [jsGetD r "sku"]
               else dups) from by simp [skuIndexGo, hb]]
        rw [show nonBlankSkus (r :: rs) = jsGetD r "sku" :: nonBlankSkus rs from
          by simp [nonBlankSkus, hb]]
        rw [ih (i + 1) (objSet idx (jsGetD r "sku") i) _]
        have hseen : (fun s => (objGet (objSet idx (jsGetD r "sku") i) s).isSome) =
            (fun x => (x == jsGetD r "sku") || (objGet idx x).isSome) :=
          funext fun x => objGet_objSet_isSome idx (jsGetD r "sku") x i
        rw [hseen]
        rw [show dupsAux (fun s => (objGet idx s).isSome)
              (jsGetD r "sku" :: nonBlankSkus rs) =
            (if (objGet idx (jsGetD r "sku")).isSome then [jsGetD r "sku"] else []) ++
              dupsAux (fun x => (x == jsGetD r "sku") || (objGet idx x).isSome)
                (nonBlankSkus rs) from rfl]
        by_cases hs : (objGet idx (jsGetD r "sku")).isSome <;> simp [hs]

theorem dupsAux_count (l : List String) :
    ∀ (seen : String → Bool) (s : String),
    (dupsAux seen l).count s = l.count s - (if seen s then 0 else 1) := by
  induction l with
  | nil => intro seen s; simp [dupsAux]
  | cons x rest ih =>
      intro seen s
      rw [show dupsAux seen (x :: rest) =
          (if seen x then [x] else []) ++ dupsAux (fun y => (y == x) || seen y) rest
        from rfl]
      rw [List.count_append, ih (fun y => (y == x) || seen y) s]
      by_cases hxs : x = s
      · subst hxs
        by_cases hsx : seen x
        · simp [hsx, List.count_cons]
          omega
        · simp [hsx, List.count_cons]
      · have hb : (s == x) = false := by simp [Ne.symm hxs]
        have hcnt : List.count s (if seen x = true then [x] else []) = 0 := by
          by_cases hsx2 : seen x <;> simp [hsx2, hb, List.count_cons, hxs]
        by_cases hsx : seen s
        · simp [hsx, hb, List.count_cons, hcnt, Ne.symm hxs]
        · simp [hsx, hb, List.count_cons, hcnt, Ne.symm hxs]

theorem duplicateSkusOf_count (data : List Row) (s : String) :
    (duplicateSkusOf data).count s = (nonBlankSkus data).count s - 1 := by
  unfold duplicateSkusOf
  rw [skuIndexGo_dups data 0 [] []]
  have h0 : (fun s => (objGet ([] : List (String × Nat)) s).isSome) =
      (fun _ : String => false) := funext fun s => rfl
  rw [List.nil_append, h0, dupsAux_count]
  simp

theorem duplicateSkusOf_ne_nil_iff (data : List Row) :
    duplicateSkusOf data ≠ [] ↔ ∃ s, 2 ≤ (nonBlankSkus data).count s := by
  constructor
  · intro h
    rcases List.exists_mem_of_ne_nil _ h with ⟨s, hs⟩
    have h1 : 1 ≤ (duplicateSkusOf data).count s := List.one_le_count_iff.mpr hs
    have h2 := duplicateSkusOf_count data s
    exact ⟨s, by omega⟩
  · rintro ⟨s, hs⟩
    have h2 := duplicateSkusOf_count data s
    have h1 : 1 ≤ (duplicateSkusOf data).count s := by omega
    intro hnil
    rw [hnil] at h1
    simp at h1

theorem matchAll_error_kind (l : List String) (e : Err)
    (h : matchAll l = .error e) : e = Err.typeErrorNullGroups := by
  induction l with
  | nil => cases h
  | cons p rest ih =>
      unfold matchAll at h
      cases hm : matchAttr p with
      | none => rw [hm] at h; cases h; rfl
      | some kv =>
          rw [hm] at h
          cases hr : matchAll rest with
          | ok v => rw [hr] at h; cases h
          | error e2 => rw [hr] at h; cases h; exact ih hr

theorem storeValues_error_kind (attrs : List (String × String)) (row : Row)
    (sku : String) (e : Err) :
    ∀ acc, storeValues row sku attrs acc = .error e → ∃ c, e = Err.missingValue c sku := by
  induction attrs with
  | nil => intro acc h; cases h
  | cons kv rest ih =>
      intro acc h
      obtain ⟨code, lab⟩ := kv
      unfold storeValues at h
      by_cases ht : truthy (jsGetD row code)
      · rw [if_pos ht] at h
        exact ih _ h
      · rw [if_neg ht] at h
        cases h
        exact ⟨code, rfl⟩

theorem relStep_error_kind (opts : Options) (st : RelState) (row : Row) (e : Err)
    (h : relStep opts st row = .error e) :
    e = Err.typeErrorNullGroups ∨ ∃ c s, e = Err.missingValue c s := by
  unfold relStep at h
  by_cases h1 : jsGetD row "sku" = ""
  · rw [if_pos h1] at h; cases h
  · rw [if_neg h1] at h
    by_cases h2 : (truthy (jsGetD row "parent_sku") &&
        truthy (jsGetD row "configurable_attributes")) = true
    · rw [if_pos h2] at h
      cases hp : parseConfigurableAttributes (jsGetD row "configurable_attributes") with
      | error e2 =>
          simp only [hp] at h
          cases h
          exact Or.inl (matchAll_error_kind _ _ hp)
      | ok attrs =>
          simp only [hp] at h
          cases hs : storeValues row (jsGetD row "sku") attrs [] with
          | error e2 =>
              simp only [hs] at h
              cases h
              rcases storeValues_error_kind _ _ _ _ _ hs with ⟨c, hc⟩
              exact Or.inr ⟨c, jsGetD row "sku", hc⟩
          | ok vals => simp only [hs] at h; cases h
    · rw [if_neg h2] at h; cases h

theorem relPassGo_ne_dup (opts : Options) (rows : List Row) :
    ∀ (st : RelState) (d : List String),
    relPassGo opts rows st ≠ .error (Err.duplicateSku d) := by
  induction rows with
  | nil => intro st d h; cases h
  | cons r rs ih =>
      intro st d h
      unfold relPassGo at h
      cases hr : relStep opts st r with
      | error e =>
          rw [hr] at h
          cases h
          rcases relStep_error_kind _ _ _ _ hr with h2 | ⟨c, s, h2⟩ <;> cases h2
      | ok st2 =>
          rw [hr] at h
          exact ih st2 d h

theorem storeValues_missing (row : Row) (sku : String)
    (attrs : List (String × String)) :
    ∀ acc, (∃ kv ∈ attrs, jsGetD row kv.1 = "") →
    ∃ c, storeValues row sku attrs acc = .error (Err.missingValue c sku)
      ∧ ∃ lab, (c, lab) ∈ attrs ∧ jsGetD row c = "" := by
  induction attrs with
  | nil =>
      intro acc h
      rcases h with ⟨kv, hm, _⟩
      simp at hm
  | cons kv rest ih =>
      intro acc h
      obtain ⟨code, lab⟩ := kv
      by_cases ht : truthy (jsGetD row code)
      · have hrest : ∃ kv2 ∈ rest, jsGetD row kv2.1 = "" := by
          rcases h with ⟨kv2, hm, hv⟩
          rcases List.mem_cons.mp hm with he | hm2
          · exfalso
            subst he
            exact (truthy_eq_true_iff _).mp ht hv
          · exact ⟨kv2, hm2, hv⟩
        rcases ih _ hrest with ⟨c, herr, lab2, hmem, hval⟩
        refine ⟨c, ?_, lab2, List.mem_cons_of_mem _ hmem, hval⟩
        unfold storeValues
        rw [if_pos ht]
        exact herr
      · have hval : jsGetD row code = "" := by
          have h2 : truthy (jsGetD row code) = false := by simpa using ht
          exact (truthy_eq_false_iff _).mp h2
        refine ⟨code, ?_, lab, List.mem_cons_self _ _, hval⟩
        unfold storeValues
        rw [if_neg ht]

theorem storeValues_ok (row : Row) (sku : String) (attrs : List (String × String)) :
    ∀ acc, (∀ kv ∈ attrs, jsGetD row kv.1 ≠ "") →
    ∃ acc2, storeValues row sku attrs acc = .ok acc2 := by
  induction attrs with
  | nil => intro acc _; exact ⟨acc, rfl⟩
  | cons kv rest ih =>
      intro acc h
      obtain ⟨code, lab⟩ := kv
      have ht : truthy (jsGetD row code) = true :=
        (truthy_eq_true_iff _).mpr (h (code, lab) (by simp))
      unfold storeValues
      rw [if_pos ht]
      exact ih _ (fun kv2 h2 => h kv2 (by simp [h2]))

theorem relStep_skip (opts : Options) (st : RelState) (row : Row)
    (h : ¬ isChildRow row) : relStep opts st row = .ok st := by
  unfold relStep
  by_cases h1 : jsGetD row "sku" = ""
  · rw [if_pos h1]
  · rw [if_neg h1]
    have h2 : ¬ ((truthy (jsGetD row "parent_sku") &&
        truthy (jsGetD row "configurable_attributes")) = true) := by
      intro hc
      rw [Bool.and_eq_true] at hc
      exact h ⟨h1, (truthy_eq_true_iff _).mp hc.1, (truthy_eq_true_iff _).mp hc.2⟩
    rw [if_neg h2]

theorem relStep_child_cond (row : Row) (h : isChildRow row) :
    (truthy (jsGetD row "parent_sku") &&
      truthy (jsGetD row "configurable_attributes")) = true := by
  rw [Bool.and_eq_true]
  exact ⟨(truthy_eq_true_iff _).mpr h.2.1, (truthy_eq_true_iff _).mpr h.2.2⟩

theorem relPassGo_missing (opts : Options) (rows : List Row) :
    ∀ st : RelState,
    (∀ r ∈ rows, isChildRow r → rowSpecParses r) →
    (∃ r ∈ rows, isChildRow r ∧ ∃ c, rowLacksValue r c) →
    ∃ c s, relPassGo opts rows st = .error (Err.missingValue c s)
      ∧ ∃ r ∈ rows, isChildRow r ∧ jsGetD r "sku" = s ∧ rowLacksValue r c := by
  induction rows with
  | nil =>
      intro st _ h
      rcases h with ⟨r, hm, _⟩
      simp at hm
  | cons r rs ih =>
      intro st hparse hbad
      by_cases hchild : isChildRow r
      · rcases hparse r (by simp) hchild with ⟨attrs, hp⟩
        by_cases hb : ∃ kv ∈ attrs, jsGetD r kv.1 = ""
        · rcases storeValues_missing r (jsGetD r "sku") attrs [] hb with
            ⟨c, herr, lab, hmem, hval⟩
          refine ⟨c, jsGetD r "sku", ?_, r, by simp, hchild, rfl,
            attrs, hp, ⟨lab, hmem⟩, hval⟩
          unfold relPassGo relStep
          rw [if_neg hchild.1, if_pos (relStep_child_cond r hchild)]
          simp only [hp, herr]
        · push_neg at hb
          rcases storeValues_ok r (jsGetD r "sku") attrs [] hb with ⟨vals, hsv⟩
          cases hrel : relStep opts st r with
          | error e =>
              exfalso
              unfold relStep at hrel
              rw [if_neg hchild.1, if_pos (relStep_child_cond r hchild)] at hrel
              simp only [hp, hsv] at hrel
              cases hrel
          | ok st2 =>
              have hstep : relPassGo opts (r :: rs) st = relPassGo opts rs st2 := by
                simp only [relPassGo, hrel]
              rw [hstep]
              have hbad2 : ∃ r2 ∈ rs, isChildRow r2 ∧ ∃ c, rowLacksValue r2 c := by
                rcases hbad with ⟨r2, hm, hc2⟩
                rcases List.mem_cons.mp hm with he | hm2
                · exfalso
                  subst he
                  rcases hc2.2 with ⟨c, attrs2, hp2, ⟨lab, hmem⟩, hval⟩
                  have : attrs2 = attrs := by
                    have := hp.symm.trans hp2
                    exact (Except.ok.inj this).symm
                  subst this
                  exact hb (c, lab) hmem hval
                · exact ⟨r2, hm2, hc2⟩
              rcases ih st2 (fun r3 h3 hc3 => hparse r3 (by simp [h3]) hc3) hbad2 with
                ⟨c, s, h1, r3, hm3, hrest⟩
              exact ⟨c, s, h1, r3, by simp [hm3], hrest⟩
      · have hstep : relPassGo opts (r :: rs) st = relPassGo opts rs st := by
          simp only [relPassGo, relStep_skip opts st r hchild]
        rw [hstep]
        have hbad2 : ∃ r2 ∈ rs, isChildRow r2 ∧ ∃ c, rowLacksValue r2 c := by
          rcases hbad with ⟨r2, hm, hc2⟩
          rcases List.mem_cons.mp hm with he | hm2
          · exact absurd (he ▸ hc2.1) hchild
          · exact ⟨r2, hm2, hc2⟩
        rcases ih st (fun r3 h3 hc3 => hparse r3 (by simp [h3]) hc3) hbad2 with
          ⟨c, s, h1, r3, hm3, hrest⟩
        exact ⟨c, s, h1, r3, by simp [hm3], hrest⟩

theorem relPassGo_complete (opts : Options) (rows : List Row) :
    ∀ st : RelState,
    (∀ r ∈ rows, isChildRow r → rowSpecParses r ∧ ∀ c, ¬ rowLacksValue r c) →
    ∃ st2, relPassGo opts rows st = .ok st2 := by
  induction rows with
  | nil => intro st _; exact ⟨st, rfl⟩
  | cons r rs ih =>
      intro st h
      by_cases hchild : isChildRow r
      · rcases h r (by simp) hchild with ⟨⟨attrs, hp⟩, hcomp⟩
        have hvals : ∀ kv ∈ attrs, jsGetD r kv.1 ≠ "" := by
          intro kv hkv hval
          exact hcomp kv.1 ⟨attrs, hp, ⟨kv.2, by simpa using hkv⟩, hval⟩
        rcases storeValues_ok r (jsGetD r "sku") attrs [] hvals with ⟨vals, hsv⟩
        cases hrel : relStep opts st r with
        | error e =>
            exfalso
            unfold relStep at hrel
            rw [if_neg hchild.1, if_pos (relStep_child_cond r hchild)] at hrel
            simp only [hp, hsv] at hrel
            cases hrel
        | ok st2 =>
            have hstep : relPassGo opts (r :: rs) st = relPassGo opts rs st2 := by
              simp only [relPassGo, hrel]
            rw [hstep]
            exact ih st2 (fun r2 h2 => h r2 (by simp [h2]))
      · have hstep : relPassGo opts (r :: rs) st = relPassGo opts rs st := by
          simp only [relPassGo, relStep_skip opts st r hchild]
        rw [hstep]
        exact ih st (fun r2 h2 => h r2 (by simp [h2]))

theorem duplicateSkusOf_nil_of_nodup (data : List Row)
    (h : (nonBlankSkus data).Nodup) : duplicateSkusOf data = [] := by
  rcases hd : duplicateSkusOf data with _ | ⟨x, t⟩
  · rfl
  · have h1 : 1 ≤ (duplicateSkusOf data).count x := by
      rw [hd]; simp [List.count_cons]
    have h2 := duplicateSkusOf_count data x
    have h3 : (nonBlankSkus data).count x ≤ 1 :=
      List.nodup_iff_count_le_one.mp h x
    omega

/-! ### Claims -/

/-- C2: the transformation aborts with the duplicate-SKU error exactly when
some non-blank SKU occurs (as an exact string) on more than one row; the
error carries the duplicates list — each duplicated SKU once per occurrence
after the first — and its reported message joins that list after the fixed
prefix.  An `Except.error` result carries no output rows; when all non-blank
SKUs are pairwise distinct no duplicate error can be returned. -/
theorem c2_duplicate_sku_detection (opts : Options) (data : List Row) :
    ((∃ d, handler opts data = .error (Err.duplicateSku d)) ↔
      ∃ s, 2 ≤ (nonBlankSkus data).count s)
    ∧ (∀ s, (duplicateSkusOf data).count s = (nonBlankSkus data).count s - 1)
    ∧ ((∃ s, 2 ≤ (nonBlankSkus data).count s) →
        handler opts data = .error (Err.duplicateSku (duplicateSkusOf data))
          ∧ errMessage (Err.duplicateSku (duplicateSkusOf data)) =
            "Can't handle duplicate SKU: " ++ joinSep ", " (duplicateSkusOf data)) := by
  have hmain : (∃ s, 2 ≤ (nonBlankSkus data).count s) →
      handler opts data = .error (Err.duplicateSku (duplicateSkusOf data)) := by
    intro hs
    have hne := (duplicateSkusOf_ne_nil_iff data).mpr hs
    unfold handler
    rw [if_neg (by simp [List.isEmpty_iff, hne])]
  refine ⟨⟨?_, fun hs => ⟨duplicateSkusOf data, hmain hs⟩⟩,
    duplicateSkusOf_count data, fun hs => ⟨hmain hs, rfl⟩⟩
  rintro ⟨d, hd⟩
  by_cases hnil : duplicateSkusOf data = []
  · exfalso
    unfold handler at hd
    rw [if_pos (by simp [hnil])] at hd
    cases hr : relPass opts data with
    | error e =>
        simp only [hr] at hd
        cases hd
        exact relPassGo_ne_dup opts data RelState.empty d hr
    | ok rel =>
        simp only [hr] at hd
        cases hd
  · exact (duplicateSkusOf_ne_nil_iff data).mp hnil

/-- Witness for C2 on a dataset repeating SKU `A`. -/
theorem c2_duplicate_sku_witness :
    handler defaultOptions [[("sku", "A")], [("sku", "A")]] =
      .error (Err.duplicateSku ["A"]) := by
  have h := (c2_duplicate_sku_detection defaultOptions
    [[("sku", "A")], [("sku", "A")]]).2.2 ⟨"A", by decide⟩
  exact h.1

/-- C3: on a duplicate-free dataset whose child rows all have parseable
specs, the transformation errors with a `MissingAttributeValueError` exactly
when some child row lacks a non-empty value for a code in its own spec; the
error names an attribute code and child SKU that genuinely exhibit the
failure, its message carries both, and the `Except.error` result means no
output is produced.  Conversely, when every child row has a non-empty value
for every declared code, the transformation succeeds. -/
theorem c3_missing_attribute_value (opts : Options) (data : List Row)
    (hnodup : (nonBlankSkus data).Nodup)
    (hparse : ∀ r ∈ data, isChildRow r → rowSpecParses r) :
    ((∃ r ∈ data, isChildRow r ∧ ∃ c, rowLacksValue r c) →
      ∃ c s, handler opts data = .error (Err.missingValue c s)
        ∧ (∃ r ∈ data, isChildRow r ∧ jsGetD r "sku" = s ∧ rowLacksValue r c)
        ∧ errMessage (Err.missingValue c s) =
            "Couldn't find value for " ++ c ++ " on child simple product " ++ s)
    ∧ ((∀ r ∈ data, isChildRow r → ∀ c, ¬ rowLacksValue r c) →
        ∃ out, handler opts data = .ok out) := by
  have hnil := duplicateSkusOf_nil_of_nodup data hnodup
  constructor
  · intro hbad
    rcases relPassGo_missing opts data RelState.empty hparse hbad with
      ⟨c, s, herr, hwit⟩
    refine ⟨c, s, ?_, hwit, rfl⟩
    unfold handler
    rw [if_pos (by simp [hnil])]
    have hrel : relPass opts data = .error (Err.missingValue c s) := herr
    simp only [hrel]
  · intro hgood
    rcases relPassGo_complete opts data RelState.empty
      (fun r hr hc => ⟨hparse r hr hc, hgood r hr hc⟩) with ⟨st2, hok⟩
    refine ⟨encodeGo opts (findAdditionalAttributeHeaders (headersOf data)) st2 data, ?_⟩
    unfold handler
    rw [if_pos (by simp [hnil])]
    have hrel : relPass opts data = .ok st2 := hok
    simp only [hrel]

/-- Witness for C3: child `C1` declares `size(Size)` but its `size` cell is
empty, so the transformation reports a missing-value error. -/
theorem c3_missing_attribute_value_witness :
    ∃ c s, handler defaultOptions [c1ParentRow, c1ChildRow "C1" "red" ""] =
      .error (Err.missingValue c s) := by
  have hparse : ∀ r ∈ [c1ParentRow, c1ChildRow "C1" "red" ""],
      isChildRow r → rowSpecParses r := by
    intro r hr hc
    rcases List.mem_cons.mp hr with he | hr2
    · exfalso
      subst he
      exact hc.2.1 rfl
    · have he : r = c1ChildRow "C1" "red" "" := by simpa using hr2
      subst he
      exact ⟨[("color", "Color"), ("size", "Size")], rfl⟩
  have hbad : ∃ r ∈ [c1ParentRow, c1ChildRow "C1" "red" ""],
      isChildRow r ∧ ∃ c, rowLacksValue r c := by
    refine ⟨c1ChildRow "C1" "red" "", by simp, ⟨by decide, by decide, by decide⟩,
      "size", [("color", "Color"), ("size", "Size")], rfl, ⟨"Size", by decide⟩, rfl⟩
  rcases (c3_missing_attribute_value defaultOptions
    [c1ParentRow, c1ChildRow "C1" "red" ""] (by decide) hparse).1 hbad with
    ⟨c, s, herr, _⟩
  exact ⟨c, s, herr⟩

/-- C4: the stock-status override fires exactly when the stored threshold is
truthy and the row's `qty` and `is_in_stock` cells are both non-empty.  When
it does not fire the row is unchanged; when it fires, `is_in_stock` becomes
`1` if the parsed `qty` reaches the threshold and `0` otherwise, with a
non-numeric `qty` giving `0`.  Thresholds built from the query string are
never `some 0`, so a configured threshold is always truthy. -/
theorem c4_auto_stock_override (opts : Options) (row : Row) :
    ((jsTruthyNum opts.autoStockStatusThreshold = false ∨ jsGetD row "qty" = "" ∨
        jsGetD row "is_in_stock" = "") → autoStockStatus opts row = row)
    ∧ (∀ t : Int, opts.autoStockStatusThreshold = some t → t ≠ 0 →
        jsGetD row "qty" ≠ "" → jsGetD row "is_in_stock" ≠ "" →
        autoStockStatus opts row =
          objSet row "is_in_stock" (expectedStockValue t (jsGetD row "qty")))
    ∧ (∀ q : QueryParams, (optionsFromQuery q).autoStockStatusThreshold ≠ some 0) := by
  refine ⟨?_, ?_, ?_⟩
  · intro h
    unfold autoStockStatus
    rcases h with h | h | h <;> simp [h, truthy]
  · intro t ht h0 h1 h2
    have htr : jsTruthyNum opts.autoStockStatusThreshold = true := by
      simp [ht, jsTruthyNum, h0]
    unfold autoStockStatus
    rw [if_pos (by simp [htr, truthy, h1, h2])]
    simp only [ht, Option.getD_some, expectedStockValue]
    cases hj : jsParseInt (jsGetD row "qty") with
    | none => simp [hj]
    | some q =>
        simp only [hj]
        split <;> rfl
  · intro q
    simp only [optionsFromQuery, parseThresholdParam]
    cases q.auto_stock_status_threshold with
    | none => simp
    | some s =>
        cases hp : jsParseInt s with
        | none => simp [hp]
        | some n =>
            by_cases hn : n = 0
            · simp [hp, hn]
            · simp [hp, hn]

/-- Witness for C4 at threshold 10, `qty` `"10"`, `is_in_stock` `"x"`. -/
theorem c4_auto_stock_override_witness :
    autoStockStatus
      { multiValueSeperator := "|", valueGroupSeperator := "$",
        autoStockStatusThreshold := some 10 }
      [("sku", "A"), ("qty", "10"), ("is_in_stock", "x")] =
    objSet [("sku", "A"), ("qty", "10"), ("is_in_stock", "x")] "is_in_stock"
      (expectedStockValue 10 "10") :=
  (c4_auto_stock_override _ _).2.1 10 rfl (by decide) (by decide) (by decide)

/-- C9 (implicit): a threshold query parameter of `0`, or one that does not
parse to an integer, stores `none` (the feature is disabled), and with a
`none` threshold the stock-status override leaves every row unchanged. -/
theorem c9_threshold_zero_or_nan_disables (s : String) (opts : Options) (row : Row) :
    ((jsParseInt s = none ∨ jsParseInt s = some 0) → parseThresholdParam (some s) = none)
    ∧ (opts.autoStockStatusThreshold = none → autoStockStatus opts row = row) := by
  constructor
  · intro h
    unfold parseThresholdParam
    rcases h with h | h <;> simp [h]
  · intro h
    unfold autoStockStatus
    simp [h, jsTruthyNum]

/-- Witness for C9: the literal parameters `"0"` and `"abc"` disable the
feature, and a disabled feature leaves a stocked row untouched. -/
theorem c9_threshold_witness :
    parseThresholdParam (some "0") = none ∧ parseThresholdParam (some "abc") = none ∧
    autoStockStatus defaultOptions [("qty", "50"), ("is_in_stock", "1")] =
      [("qty", "50"), ("is_in_stock", "1")] :=
  ⟨(c9_threshold_zero_or_nan_disables "0" defaultOptions []).1 (Or.inr (by decide)),
   (c9_threshold_zero_or_nan_disables "abc" defaultOptions []).1 (Or.inl (by decide)),
   (c9_threshold_zero_or_nan_disables "" defaultOptions
      [("qty", "50"), ("is_in_stock", "1")]).2 rfl⟩

/-- C5 counterexample: the locator excludes the `additional_attributes`
marker itself, and on a dataset with no marker header the output row still
receives an (empty) `additional_attributes` column, because the empty header
array is truthy in JS. -/
theorem c5_counterexample :
    findAdditionalAttributeHeaders ["sku", "additional_attributes", "colour"] = ["colour"]
    ∧ findAdditionalAttributeHeaders ["sku", "additional_attributes", "colour"] ≠
        ["additional_attributes", "colour"]
    ∧ handler defaultOptions [[("sku", "A"), ("name", "x")]] =
        .ok [[("sku", "A"), ("name", "x"), ("additional_attributes", "")]] :=
  ⟨rfl, by decide, rfl⟩

/-- C5 (amended): the locator returns the subsequence of headers strictly
after the first `additional_attributes` header (the marker itself excluded),
in original order, and the empty result when the marker is absent; but even
then every encoded row carries an `additional_attributes` column set to the
empty string, since the squash step runs unconditionally. -/
theorem c5_locator_after_marker :
    (∀ headers : List String,
       findAdditionalAttributeHeaders headers =
         (headers.dropWhile (fun k => k != "additional_attributes")).drop 1)
    ∧ (∀ (opts : Options) (rel : RelState) (row : Row),
       objGet (encodeRow opts [] rel row) "additional_attributes" = some "") := by
  constructor
  · intro headers
    induction headers with
    | nil => rfl
    | cons k rest ih =>
        by_cases h : k = "additional_attributes"
        · simp [findAdditionalAttributeHeaders, findAAHGo, h, List.dropWhile,
            findAAHGo_true]
        · have hb : (k != "additional_attributes") = true := by simp [h]
          simp only [findAdditionalAttributeHeaders, findAAHGo] at ih ⊢
          simp [h, List.dropWhile, hb, ih]
  · intro opts rel row
    exact objGet_squashAndFinish_additional _ _

/-- C6 counterexample: a child row whose SKU is a single space is blank
(whitespace-only), yet the relationship pass processes it — `P`'s children
list gains the entry `" "` and `P`'s output row encodes `sku= |color=red` —
refuting that blank-SKU rows never contribute to relationship building. -/
theorem c6_counterexample :
    jsTrim (jsGetD wsSkuChildRow "sku") = ""
    ∧ relPass defaultOptions c6Data =
        .ok { childrenByParent := [("P", [" "])],
              labelsByParent := [("P", "color=Color")],
              parentByChildren := [(" ", "P")],
              valuesByChildren := [(" ", [("color", "red")])] }
    ∧ handler defaultOptions c6Data =
        .ok [[("sku", "P"), ("color", ""),
          ("configurable_variations", "sku= |color=red"),
          ("configurable_variation_labels", "color=Color"),
          ("additional_attributes", "")]] :=
  ⟨rfl, rfl, rfl⟩

/-- C6 (amended): rows whose trimmed SKU is empty are skipped by the
indexing pass (no duplicate detection) and by the output pass (never
emitted); the relationship pass, however, skips only rows whose SKU is
exactly the empty string, so whitespace-only SKUs do contribute there. -/
theorem c6_blank_sku_rows (i : Nat) (rows : List Row) (idx : List (String × Nat))
    (dups : List String) (opts : Options) (st : RelState) (addl : List String)
    (rel : RelState) (row : Row) :
    (jsTrim (jsGetD row "sku") = "" →
       skuIndexGo i (row :: rows) idx dups = skuIndexGo (i + 1) rows idx dups)
    ∧ (jsGetD row "sku" = "" →
       relPassGo opts (row :: rows) st = relPassGo opts rows st)
    ∧ (jsTrim (jsGetD row "sku") = "" →
       encodeGo opts addl rel (row :: rows) = encodeGo opts addl rel rows) := by
  refine ⟨?_, ?_, ?_⟩
  · intro h; simp [skuIndexGo, h]
  · intro h; simp [relPassGo, relStep, h]
  · intro h; simp [encodeGo, h]

/-- Witness for the amended C6 at an empty-SKU row. -/
theorem c6_blank_sku_rows_witness :
    relPassGo defaultOptions [[("sku", ""), ("parent_sku", "P")]] RelState.empty =
      relPassGo defaultOptions [] RelState.empty :=
  (c6_blank_sku_rows 0 [] [] [] defaultOptions RelState.empty [] RelState.empty
    [("sku", ""), ("parent_sku", "P")]).2.1 rfl

/-- C7 counterexample: on a child row whose spec cell is `"color"` (no
parenthesized label), the transformation aborts with the TypeError raised by
reading `.groups` of the failed match; its reported message does not contain
the offending child SKU `C1`. -/
theorem c7_counterexample :
    handler defaultOptions c7Data = .error Err.typeErrorNullGroups
    ∧ ¬ List.IsInfix "C1".data (errMessage Err.typeErrorNullGroups).data :=
  ⟨rfl, by decide⟩

/-- C7 (amended): a `configurable_attributes` cell with any comma-separated
piece the attribute regex does not match makes the parse abort with the
TypeError from `.groups` of null; the error is reported through the
handler's catch-all with the fixed message below, which does not identify
the offending child's SKU. -/
theorem c7_malformed_spec_abort (s : String) :
    ((splitSep ',' s).any (fun p => (matchAttr p).isNone) = true →
      parseConfigurableAttributes s = .error Err.typeErrorNullGroups)
    ∧ errMessage Err.typeErrorNullGroups =
        "Cannot read properties of null (reading 'groups')" :=
  ⟨fun h => matchAll_error _ h, rfl⟩

/-- Witness for the amended C7 at the spec cell `"color"`. -/
theorem c7_malformed_spec_abort_witness :
    parseConfigurableAttributes "color" = .error Err.typeErrorNullGroups :=
  (c7_malformed_spec_abort "color").1 (by decide)

theorem cleanStr_spec (s : String) (h : cleanStr s = true) :
    ∀ ch ∈ s.data, ch ≠ '=' ∧ ch ≠ '|' ∧ ch ≠ '$' := by
  intro ch hch
  have h2 := List.all_eq_true.mp h ch hch
  have h3 : (¬ch = '=' ∧ ¬ch = '|') ∧ ¬ch = '$' := by simpa [cleanChar] using h2
  exact ⟨h3.1.1, h3.1.2, h3.2⟩

/-- C8 counterexample: with the child's `color` value `a|b` containing the
multi-value separator, the transformation succeeds, but decoding the
produced `configurable_variations` string does not reconstruct the encoded
mapping. -/
theorem c8_counterexample :
    handler defaultOptions c8Data = .ok
      [[("sku", "P"), ("color", ""),
        ("configurable_variations", "sku=C1|color=a|b"),
        ("configurable_variation_labels", "color=Color"),
        ("additional_attributes", "")],
       [("sku", "C1"), ("color", "a|b"), ("configurable_variations", ""),
        ("configurable_variation_labels", ""), ("additional_attributes", "")]]
    ∧ specDecodeVariations "sku=C1|color=a|b" = [("C1", [("color", "a"), ("b", "")])]
    ∧ [("C1", [("color", "a"), ("b", "")])] ≠ [("C1", [("color", "a|b")])] :=
  ⟨rfl, rfl, by decide⟩

/-- C8 (amended): under the default separators, and provided every child SKU,
attribute code and attribute value is free of `=`, `|` and `$`, no attribute
code is literally `sku`, and each child's attribute codes are pairwise
distinct, decoding an encoded `configurable_variations` string — splitting
on the value-group separator, then the multi-value separator, then the first
`=` of each pair — reconstructs exactly the child-SKU list and each child's
attribute mapping. -/
theorem c8_roundtrip (children : List String) (values : List (String × Row))
    (hne : children ≠ [])
    (hsku : ∀ c ∈ children, cleanStr c = true)
    (hvals : ∀ c ∈ children, ∀ kv ∈ (objGet values c).getD [],
      cleanStr kv.1 = true ∧ cleanStr kv.2 = true ∧ kv.1 ≠ "sku")
    (hnodup : ∀ c ∈ children, (((objGet values c).getD []).map Prod.fst).Nodup) :
    specDecodeVariations (encodeVariations defaultOptions children values) =
      children.map (fun c => (c, (objGet values c).getD [])) := by
  have hcleanC : ∀ c ∈ children, ∀ ch ∈ c.data, ch ≠ '=' ∧ ch ≠ '|' ∧ ch ≠ '$' :=
    fun c hc => cleanStr_spec c (hsku c hc)
  have hassign : ∀ c ∈ children,
      objSetAll [("sku", c)] ((objGet values c).getD []) =
        ("sku", c) :: (objGet values c).getD [] := by
    intro c hc
    refine objSetAll_fresh _ _ (fun kv hkv => ?_) (hnodup c hc)
    have hne2 : kv.1 ≠ "sku" := (hvals c hc kv hkv).2.2
    simp [objGet, Ne.symm hne2]
  have hpairclean : ∀ c ∈ children, ∀ kv ∈ (objGet values c).getD [],
      (∀ ch ∈ kv.1.data, ch ≠ '=' ∧ ch ≠ '|') ∧
        (∀ ch ∈ kv.2.data, ch ≠ '=' ∧ ch ≠ '|') := by
    intro c hc kv hkv
    refine ⟨fun ch h => ?_, fun ch h => ?_⟩
    · have h2 := cleanStr_spec kv.1 (hvals c hc kv hkv).1 ch h
      exact ⟨h2.1, h2.2.1⟩
    · have h2 := cleanStr_spec kv.2 (hvals c hc kv hkv).2.1 ch h
      exact ⟨h2.1, h2.2.1⟩
  have hgclean : ∀ c ∈ children, ∀ ch ∈
      (convertColumnsToStringKeyValue
        (("sku", c) :: (objGet values c).getD []) "|").data, ch ≠ '$' := by
    intro c hc ch hch
    unfold convertColumnsToStringKeyValue at hch
    rcases mem_data_joinSep _ _ _ hch with h | ⟨p, hp, hchp⟩
    · have h2 : ch = '|' := by simpa using h
      simp [h2]
    · simp only [List.map_cons, List.mem_cons, List.mem_map] at hp
      rcases hp with hp | ⟨kv, hkv, hpe⟩
      · subst hp
        rcases mem_data_pair _ _ _ hchp with h | h | h
        · have h2 : ch = 's' ∨ ch = 'k' ∨ ch = 'u' := by simpa using h
          rcases h2 with h2 | h2 | h2 <;> simp [h2]
        · simp [h]
        · exact (hcleanC c hc ch h).2.2
      · rcases mem_data_pair kv.1 kv.2 ch (hpe ▸ hchp) with h | h | h
        · exact (cleanStr_spec kv.1 (hvals c hc kv hkv).1 ch h).2.2
        · simp [h]
        · exact (cleanStr_spec kv.2 (hvals c hc kv hkv).2.1 ch h).2.2
  have hfold : ∀ l2 : List String,
      (∀ c ∈ l2, specDecodeGroup (convertColumnsToStringKeyValue
          (objSetAll [("sku", c)] ((objGet values c).getD [])) "|") =
        (c, (objGet values c).getD [])) →
      (l2.map (fun childSku => convertColumnsToStringKeyValue
          (objSetAll [("sku", childSku)] ((objGet values childSku).getD []))
          "|")).map specDecodeGroup =
        l2.map (fun c => (c, (objGet values c).getD [])) := by
    intro l2 h2
    induction l2 with
    | nil => rfl
    | cons c t ih =>
        simp only [List.map_cons]
        rw [h2 c (by simp), ih (fun c2 hc2 => h2 c2 (by simp [hc2]))]
  simp only [specDecodeVariations, encodeVariations, defaultOptions]
  rw [splitSep_joinSep '$' "$" rfl _ (by simpa using hne) ?hcl]
  case hcl =>
    intro p hp ch hch
    rcases List.mem_map.mp hp with ⟨c, hcl2, hpe⟩
    rw [← hpe, hassign c hcl2] at hch
    exact hgclean c hcl2 ch hch
  refine hfold children (fun c hc => ?_)
  rw [hassign c hc]
  exact specDecodeGroup_encode c _
    (fun ch h => ⟨(hcleanC c hc ch h).1, (hcleanC c hc ch h).2.1⟩)
    (hpairclean c hc)

/-- Witness for the amended C8 at one clean child. -/
theorem c8_roundtrip_witness :
    specDecodeVariations
      (encodeVariations defaultOptions ["C1"] [("C1", [("color", "red")])]) =
      [("C1", [("color", "red")])] := by
  have h := c8_roundtrip ["C1"] [("C1", [("color", "red")])]
    (by decide) (by decide) (by decide) (by decide)
  simpa using h

/-- C10 (implicit): a child row whose `parent_sku` (`X`) equals no row's SKU
raises no error; its relationship data is fully built under the dangling
parent key, but the transformed output contains no row with SKU `X`, so that
data is never emitted — in general a row whose own SKU is not a key of the
children map only ever receives the empty placeholder in
`configurable_variations`. -/
theorem c10_dangling_parent :
    (relPass defaultOptions c10Data =
      .ok { childrenByParent := [("X", ["B"])],
            labelsByParent := [("X", "color=Color")],
            parentByChildren := [("B", "X")],
            valuesByChildren := [("B", [("color", "red")])] })
    ∧ (handler defaultOptions c10Data = .ok
        [[("sku", "A"), ("color", ""), ("configurable_variations", ""),
          ("configurable_variation_labels", ""), ("additional_attributes", "")],
         [("sku", "B"), ("color", "red"), ("configurable_variations", ""),
          ("configurable_variation_labels", ""), ("additional_attributes", "")]])
    ∧ (∀ (opts : Options) (addl : List String) (rel : RelState) (row : Row),
        rel.childrenByParent ≠ [] →
        objGet rel.childrenByParent (jsGetD row "sku") = none →
        containsStr addl "configurable_variations" = false →
        objGet (encodeRow opts addl rel row) "configurable_variations" = some "") := by
  refine ⟨rfl, rfl, ?_⟩
  intro opts addl rel row hne hnone hcv
  have hempty : rel.childrenByParent.isEmpty = false := by
    rcases h : rel.childrenByParent with _ | ⟨p, l⟩
    · exact absurd h hne
    · rfl
  simp only [encodeRow]
  rw [if_neg (by simp [hempty])]
  have hsku : jsGetD (objSet (objSet (objSet row "configurable_variations" "")
      "configurable_variation_labels" "") "additional_attributes" "") "sku" =
      jsGetD row "sku" := by
    unfold jsGetD
    rw [objGet_objSet_ne _ _ _ _ (by decide), objGet_objSet_ne _ _ _ _ (by decide),
      objGet_objSet_ne _ _ _ _ (by decide)]
  rw [hsku, hnone]
  rw [objGet_squashAndFinish _ _ _ _ (by decide) (by decide) (by decide) (by decide) hcv]
  rw [objGet_objSet_ne _ _ _ _ (by decide)]
  rw [objGet_objSet_ne _ _ _ _ (by decide)]
  exact objGet_objSet_self _ _ _

/-- Witness for C10's generic part: a plain row receives the empty
placeholder when its SKU is not a parent. -/
theorem c10_dangling_parent_witness :
    objGet (encodeRow defaultOptions []
      { childrenByParent := [("X", ["B"])], labelsByParent := [("X", "color=Color")],
        parentByChildren := [("B", "X")], valuesByChildren := [("B", [("color", "red")])] }
      [("sku", "A")]) "configurable_variations" = some "" :=
  c10_dangling_parent.2.2 defaultOptions [] _ [("sku", "A")] (by decide) rfl rfl

/-- C1: on the dataset with parent `P` and children `C1`, `C2` declaring
`color(Color),size(Size)` with non-empty values `v1`–`v4`, the output row
for `P` carries `configurable_variations` equal to the `$`-joined child
encodings — each child listing `sku` first and then its attribute values in
spec order, `|`-joined — and `configurable_variation_labels` equal to
`color=Color|size=Size` under the default separators. -/
theorem c1_configurable_encoding (v1 v2 v3 v4 : String)
    (h1 : v1 ≠ "") (h2 : v2 ≠ "") (h3 : v3 ≠ "") (h4 : v4 ≠ "") :
    handler defaultOptions (c1Data v1 v2 v3 v4) =
      .ok [c1OutParent v1 v2 v3 v4, c1OutChild "C1" v1 v2, c1OutChild "C2" v3 v4]
    ∧ objGet (c1OutParent v1 v2 v3 v4) "configurable_variations" =
        some ("sku=C1|color=" ++ v1 ++ "|size=" ++ v2 ++
          "$sku=C2|color=" ++ v3 ++ "|size=" ++ v4)
    ∧ objGet (c1OutParent v1 v2 v3 v4) "configurable_variation_labels" =
        some "color=Color|size=Size" := by
  obtain ⟨l1⟩ := v1
  cases l1 with
  | nil => exact absurd rfl h1
  | cons a1 r1 =>
      obtain ⟨l2⟩ := v2
      cases l2 with
      | nil => exact absurd rfl h2
      | cons a2 r2 =>
          obtain ⟨l3⟩ := v3
          cases l3 with
          | nil => exact absurd rfl h3
          | cons a3 r3 =>
              obtain ⟨l4⟩ := v4
              cases l4 with
              | nil => exact absurd rfl h4
              | cons a4 r4 =>
                  refine ⟨?_, rfl, rfl⟩
                  rw [c1OutParent_produced]
                  rfl

/-- Witness for C1 at concrete values `red`, `small`, `blue`, `large`. -/
theorem c1_configurable_encoding_witness :
    handler defaultOptions (c1Data "red" "small" "blue" "large") =
      .ok [c1OutParent "red" "small" "blue" "large",
           c1OutChild "C1" "red" "small", c1OutChild "C2" "blue" "large"]
    ∧ objGet (c1OutParent "red" "small" "blue" "large") "configurable_variations" =
        some ("sku=C1|color=" ++ "red" ++ "|size=" ++ "small" ++
          "$sku=C2|color=" ++ "blue" ++ "|size=" ++ "large")
    ∧ objGet (c1OutParent "red" "small" "blue" "large") "configurable_variation_labels" =
        some "color=Color|size=Size" :=
  c1_configurable_encoding "red" "small" "blue" "large"
    (by decide) (by decide) (by decide) (by decide)

end MIT
